import Mathlib

/-!
Verification of the ZFS-backed storage driver (`lxd/storage_zfs.go`).

The driver's functions are shallowly embedded: each Go function that a claim
refers to is translated into an executable Lean definition over explicit
inputs (the volume config map, the oracle answers of the `zfs` subprocesses,
the scheduler of concurrent callers).  Effects are recorded as traces of the
`zfs` operations a run would issue.  Helpers that live outside the driver's
source file (`shared.IsTrue`, the snapshot delimiter, `filepath.IsAbs`) are
modelled from the spec and carry a doc comment saying so.
-/

namespace LXD

/-- `shared.StringInSlice`: membership test on a list of strings. -/
def StringInSlice (key : String) (list : List String) : Bool :=
  list.any (fun entry => entry == key)

/-- Modelled from the spec: `shared.IsTrue` (a helper of the manager's shared
package, not part of the driver source) reads a config flag such as
`zfs.use_refquota` as a boolean; a flag is true when set to a truthy word. -/
def IsTrue (value : String) : Bool :=
  StringInSlice value.toLower ["true", "1", "yes", "on"]

/-- `StoragePoolUpdate`: rejects changes to unchangeable pool config keys,
returning the error message; `none` means success (`nil`). -/
def StoragePoolUpdate (changedConfig : List String) : Option String :=
  if StringInSlice "size" changedConfig then
    some "The \"size\" property cannot be changed."
  else if StringInSlice "source" changedConfig then
    some "The \"source\" property cannot be changed."
  else if StringInSlice "volume.size" changedConfig then
    some "The \"volume.size\" property cannot be changed."
  else if StringInSlice "volume.block.mount_options" changedConfig then
    some "The \"volume.block.mount_options\" property cannot be changed."
  else if StringInSlice "volume.block.filesystem" changedConfig then
    some "The \"volume.block.filesystem\" property cannot be changed."
  else if StringInSlice "volume.lvm.thinpool_name" changedConfig then
    some "The \"volume.lvm.thinpool_name\" property cannot be changed."
  else if StringInSlice "volume.zfs.use_refquota" changedConfig then
    some "The \"volume.zfs.use_refquota\" property cannot be changed."
  else if StringInSlice "volume.zfs.remove_snapshots" changedConfig then
    some "The \"volume.zfs.remove_snapshots\" property cannot be changed."
  else if StringInSlice "zfs.pool_name" changedConfig then
    some "The \"zfs.pool_name\" property cannot be changed."
  else none

/-- `StoragePoolVolumeUpdate`: rejects changes to unchangeable volume config
keys, returning the error message; `none` means success (`nil`). -/
def StoragePoolVolumeUpdate (changedConfig : List String) : Option String :=
  if StringInSlice "block.mount_options" changedConfig then
    some "The \"block.mount_options\" property cannot be changed."
  else if StringInSlice "block.filesystem" changedConfig then
    some "The \"block.filesystem\" property cannot be changed."
  else if StringInSlice "size" changedConfig then
    some "The \"size\" property cannot be changed."
  else if StringInSlice "zfs.use_refquota" changedConfig then
    some "The \"zfs.use_refquota\" property cannot be changed."
  else if StringInSlice "zfs.remove_snapshots" changedConfig then
    some "The \"zfs.remove_snapshots\" property cannot be changed."
  else none

theorem stringInSlice_iff_mem (key : String) (l : List String) :
    StringInSlice key l = true ↔ key ∈ l := by
  simp [StringInSlice]

/-- Claim C6: `StoragePoolUpdate` returns an error if and only if the changed
config list contains one of the nine unchangeable pool keys, and
`StoragePoolVolumeUpdate` errors exactly when the list contains one of the
five unchangeable volume keys. -/
theorem claim_C6 (poolCfg volCfg : List String) :
    ((StoragePoolUpdate poolCfg).isSome = true ↔
      ("size" ∈ poolCfg ∨ "source" ∈ poolCfg ∨ "volume.size" ∈ poolCfg ∨
        "volume.block.mount_options" ∈ poolCfg ∨ "volume.block.filesystem" ∈ poolCfg ∨
        "volume.lvm.thinpool_name" ∈ poolCfg ∨ "volume.zfs.use_refquota" ∈ poolCfg ∨
        "volume.zfs.remove_snapshots" ∈ poolCfg ∨ "zfs.pool_name" ∈ poolCfg)) ∧
    ((StoragePoolVolumeUpdate volCfg).isSome = true ↔
      ("block.mount_options" ∈ volCfg ∨ "block.filesystem" ∈ volCfg ∨
        "size" ∈ volCfg ∨ "zfs.use_refquota" ∈ volCfg ∨
        "zfs.remove_snapshots" ∈ volCfg)) := by
  constructor
  · unfold StoragePoolUpdate
    split_ifs <;> simp_all [stringInSlice_iff_mem]
  · unfold StoragePoolVolumeUpdate
    split_ifs <;> simp_all [stringInSlice_iff_mem]

/-- Go `strconv.ParseInt(s, 10, 64)`: an optional sign followed by decimal
digits, the value lying within the int64 range; `none` models the error
return. -/
def parseInt64 (s : String) : Option Int :=
  let signed : Bool × List Char :=
    match s.data with
    | '-' :: rest => (true, rest)
    | '+' :: rest => (false, rest)
    | l => (false, l)
  let neg := signed.1
  let digits := signed.2
  if digits.isEmpty then none
  else if digits.all (fun c => c.isDigit) then
    let n : Nat := digits.foldl (fun acc c => acc * 10 + (c.toNat - '0'.toNat)) 0
    let v : Int := if neg then -(n : Int) else (n : Int)
    if -(2 ^ 63) ≤ v ∧ v ≤ 2 ^ 63 - 1 then some v else none
  else none

/-- The `zfs set` invocation issued by `ContainerSetQuota`. -/
structure SetCmd where
  path : String
  key : String
  value : String
deriving DecidableEq

/-- `ContainerSetQuota`: sets `quota` (or `refquota` when the volume config
flag `zfs.use_refquota` is true) on `containers/<n>`; the value is the decimal
rendering of `size` when `size > 0`, the string `none` otherwise. -/
def ContainerSetQuota (volConfig : String → String) (containerName : String)
    (size : Int) : SetCmd :=
  let fs := "containers/" ++ containerName
  let property := if IsTrue (volConfig "zfs.use_refquota") then "refquota" else "quota"
  if 0 < size then ⟨fs, property, toString size⟩
  else ⟨fs, property, "none"⟩

/-- `ContainerGetUsage`: reads `used` (or `usedbydataset` under the
`zfs.use_refquota` flag) via `zfs get` (the oracle `props`) and parses the
value as an int64.  The Go function returns `-1` alongside the error; the
error path is modelled by `Except.error`. -/
def ContainerGetUsage (props : String → String → Option String)
    (volConfig : String → String) (containerName : String) : Except String Int :=
  let fs := "containers/" ++ containerName
  let property := if IsTrue (volConfig "zfs.use_refquota") then "usedbydataset" else "used"
  match props fs property with
  | none => .error "Failed to get ZFS config"
  | some value =>
    match parseInt64 value with
    | none => .error "invalid syntax"
    | some v => .ok v

/-- Claim C7: `ContainerSetQuota` writes the `quota` property, or `refquota`
when `zfs.use_refquota` is true, on `containers/<n>`; the value is the decimal
rendering of a positive size, and the string `none` at size 0.
`ContainerGetUsage` reads `used` (or `usedbydataset` under the same flag) and
returns it parsed as an int64. -/
theorem claim_C7 (volConfig : String → String)
    (props : String → String → Option String) (name : String) (size : Int) :
    ((ContainerSetQuota volConfig name size).path = "containers/" ++ name) ∧
    (IsTrue (volConfig "zfs.use_refquota") = true →
      (ContainerSetQuota volConfig name size).key = "refquota") ∧
    (IsTrue (volConfig "zfs.use_refquota") = false →
      (ContainerSetQuota volConfig name size).key = "quota") ∧
    (0 < size → (ContainerSetQuota volConfig name size).value = toString size) ∧
    (size = 0 → (ContainerSetQuota volConfig name size).value = "none") ∧
    (∀ v i, props ("containers/" ++ name)
          (if IsTrue (volConfig "zfs.use_refquota") then "usedbydataset" else "used") =
          some v →
      parseInt64 v = some i →
      ContainerGetUsage props volConfig name = .ok i) := by
  refine ⟨?_, ?_, ?_, ?_, ?_, ?_⟩
  · unfold ContainerSetQuota; dsimp only; split_ifs <;> rfl
  · intro h; unfold ContainerSetQuota; dsimp only; simp only [h]; split_ifs <;> simp_all
  · intro h; unfold ContainerSetQuota; dsimp only; simp only [h]; split_ifs <;> simp_all
  · intro h; unfold ContainerSetQuota; dsimp only; simp only [if_pos h]
  · intro h; subst h; rfl
  · intro v i h1 h2
    unfold ContainerGetUsage
    simp only [h1, h2]

/-- Witness for claim C7 at concrete inputs. -/
theorem claim_C7_witness :
    (ContainerSetQuota (fun _ => "") "c" 5).value = toString (5 : Int) ∧
    (ContainerSetQuota (fun _ => "") "c" 0).value = "none" ∧
    ContainerGetUsage (fun _ _ => some "42") (fun _ => "") "c" = .ok 42 := by
  refine ⟨(claim_C7 (fun _ => "") (fun _ _ => some "42") "c" 5).2.2.2.1 (by decide),
    (claim_C7 (fun _ => "") (fun _ _ => some "42") "c" 0).2.2.2.2.1 rfl,
    (claim_C7 (fun _ => "") (fun _ _ => some "42") "c" 0).2.2.2.2.2 "42" 42 rfl (by decide)⟩

/-- Outcome of a Go function call: a normal return of a value, an error
return, or a runtime panic (e.g. an index out of range). -/
inductive GoResult (α : Type) where
  | ok (a : α)
  | err (e : String)
  | panic
deriving DecidableEq

/-- `ContainerCanRestore`: compares the name of the last snapshot of the
container (`snaps[len(snaps)-1]` in Go — on an empty list the index is `-1`
and the access panics at runtime, modelled by `GoResult.panic`) against the
requested snapshot, and rejects non-latest restores unless
`zfs.remove_snapshots` is set. -/
def ContainerCanRestore (snapshotsResult : Except String (List String))
    (sourceContainerName : String) (volConfig : String → String) : GoResult Unit :=
  match snapshotsResult with
  | .error e => .err e
  | .ok snaps =>
    match snaps.getLast? with
    | none => .panic
    | some lastName =>
      if lastName ≠ sourceContainerName then
        if !IsTrue (volConfig "zfs.remove_snapshots") then
          .err "ZFS can only restore from the latest snapshot. Delete newer snapshots or copy the snapshot into a new container instead."
        else .ok ()
      else .ok ()

/-- Claim C9: when `Snapshots()` returns an empty list with nil error,
`ContainerCanRestore` reads `snaps[len(snaps)-1] = snaps[-1]`, an out-of-range
access, so the call panics instead of returning an error. -/
theorem claim_C9 (sourceContainerName : String) (volConfig : String → String) :
    ContainerCanRestore (.ok []) sourceContainerName volConfig = .panic := rfl

/-- Modelled from the spec: `shared.SnapshotDelimiter`, the single character
separating a container name from its snapshot name. -/
def SnapshotDelimiter : Char := '/'

/-- Splits a character list at the first occurrence of `delim`; `none` when
the delimiter does not occur. -/
def splitAtChar (delim : Char) : List Char → Option (List Char × List Char)
  | [] => none
  | c :: rest =>
    if c = delim then some ([], rest)
    else
      match splitAtChar delim rest with
      | none => none
      | some (a, b) => some (c :: a, b)

/-- Go `strings.SplitN(s, delim, 2)` for a single-character delimiter: the
part before the first occurrence and the remainder, or `[s]` when the
delimiter does not occur. -/
def splitN2 (s : String) (delim : Char) : List String :=
  match splitAtChar delim s.data with
  | none => [s]
  | some (a, b) => [⟨a⟩, ⟨b⟩]

theorem splitAtChar_eq_none_of_not_mem (delim : Char) (l : List Char)
    (h : delim ∉ l) : splitAtChar delim l = none := by
  induction l with
  | nil => rfl
  | cons c rest ih =>
    simp only [List.mem_cons, not_or] at h
    have hne : ¬c = delim := fun hc => h.1 hc.symm
    simp only [splitAtChar, if_neg hne, ih h.2]

/-- The `zfs` and filesystem operations recorded by the snapshot-engine
models. -/
inductive ZfsOp where
  | clone (source : String) (snapName : String) (dest : String) (mountpoint : String)
  | destroy (path : String)
  | removeAll (path : String)
deriving DecidableEq

/-- `ContainerSnapshotStart`: splits the instance name on the snapshot
delimiter and clones `containers/<c>@snapshot-<s>` to `snapshots/<c>/<s>`;
a name without the delimiter is rejected before any operation. -/
def ContainerSnapshotStart (getSnapshotMountPoint : String → String → String)
    (poolName containerName : String) : List ZfsOp × Option String :=
  let fields := splitN2 containerName SnapshotDelimiter
  if fields.length < 2 then ([], some ("Invalid snapshot name: " ++ containerName))
  else
    let cName := fields.getD 0 ""
    let sName := fields.getD 1 ""
    let sourceFs := "containers/" ++ cName
    let sourceSnap := "snapshot-" ++ sName
    let destFs := "snapshots/" ++ cName ++ "/" ++ sName
    let snapshotMntPoint := getSnapshotMountPoint poolName containerName
    ([ZfsOp.clone sourceFs sourceSnap destFs snapshotMntPoint], none)

/-- `ContainerSnapshotStop`: splits the instance name on the snapshot
delimiter and destroys the `snapshots/<c>/<s>` clone, then removes the
manager-side path; a name without the delimiter is rejected before any
operation. -/
def ContainerSnapshotStop (containerPath : String) (containerName : String) :
    List ZfsOp × Option String :=
  let fields := splitN2 containerName SnapshotDelimiter
  if fields.length < 2 then ([], some ("Invalid snapshot name: " ++ containerName))
  else
    let cName := fields.getD 0 ""
    let sName := fields.getD 1 ""
    let destFs := "snapshots/" ++ cName ++ "/" ++ sName
    ([ZfsOp.destroy destFs, ZfsOp.removeAll containerPath], none)

/-- Claim C10: for a container name without the snapshot delimiter, both
`ContainerSnapshotStart` and `ContainerSnapshotStop` return the error
`Invalid snapshot name: <name>` and issue no ZFS operation and no filesystem
change. -/
theorem claim_C10 (getMnt : String → String → String)
    (poolName containerPath name : String) (h : SnapshotDelimiter ∉ name.data) :
    ContainerSnapshotStart getMnt poolName name =
      ([], some ("Invalid snapshot name: " ++ name)) ∧
    ContainerSnapshotStop containerPath name =
      ([], some ("Invalid snapshot name: " ++ name)) := by
  have hsplit : splitN2 name SnapshotDelimiter = [name] := by
    unfold splitN2
    rw [splitAtChar_eq_none_of_not_mem _ _ h]
  constructor
  · unfold ContainerSnapshotStart
    rw [hsplit]
    rfl
  · unfold ContainerSnapshotStop
    rw [hsplit]
    rfl


/-- Witness for claim C10 at a concrete delimiter-free name. -/
theorem claim_C10_witness :
    ContainerSnapshotStart (fun _ _ => "") "p" "c1" =
      ([], some ("Invalid snapshot name: " ++ "c1")) ∧
    ContainerSnapshotStop "/var/lib/lxd/containers/c1" "c1" =
      ([], some ("Invalid snapshot name: " ++ "c1")) :=
  claim_C10 (fun _ _ => "") "p" "/var/lib/lxd/containers/c1" "c1" (by decide)

/-- `filepath.IsAbs` on Unix (standard library helper): the path starts with
a slash. -/
def IsAbs (p : String) : Bool :=
  match p.data with
  | '/' :: _ => true
  | _ => false

/-- Go `strings.Contains(s, <single character>)`. -/
def containsChar (s : String) (c : Char) : Bool := s.data.contains c

/-- The dataset detection of `StoragePoolInit`: a non-empty relative `source`
is treated as an existing ZFS dataset and recorded in `s.dataset`; otherwise
`s.dataset` stays empty and operations prefix with the pool name. -/
def storagePoolInitDataset (source : String) : String :=
  if source != "" && !IsAbs source then source else ""

/-- Pool-level operations recorded by the pool-deletion model. -/
inductive PoolOp where
  | zpoolDestroy (pool : String)
  | removeVdevFile (path : String)
  | removePoolMntPoint (pool : String)
deriving DecidableEq

/-- `zfsPoolDelete`: `zpool destroy -f <pool>`, then removal of the vdev
backing file when the recorded source is an absolute non-block-device path
(`isBlockdev` is the `shared.IsBlockdevPath` oracle). -/
def zfsPoolDelete (isBlockdev : String → Bool) (poolName source : String) :
    List PoolOp :=
  [PoolOp.zpoolDestroy poolName] ++
    (if IsAbs source && !isBlockdev source then [PoolOp.removeVdevFile source]
     else [])

/-- `StoragePoolDelete`: runs `zfsPoolDelete` unless the recorded dataset
contains a `/`, then removes the pool's mountpoint directory (recorded here by
pool name; the path derivation lives outside the driver source). -/
def StoragePoolDelete (isBlockdev : String → Bool)
    (poolName source dataset : String) : List PoolOp :=
  (if dataset == "" || (dataset != "" && !containsChar dataset '/') then
    zfsPoolDelete isBlockdev poolName source
  else []) ++ [PoolOp.removePoolMntPoint poolName]

/-- Counterexample to claim C4 as stated: the relative source `tank` is
recorded as the dataset (operations prefix with it rather than the pool
name), yet `StoragePoolDelete` still invokes `zpool destroy`, because the
suppression check requires the dataset to contain a `/`. -/
theorem claim_C4_counterexample :
    storagePoolInitDataset "tank" ≠ "" ∧
    PoolOp.zpoolDestroy "p" ∈
      StoragePoolDelete (fun _ => false) "p" "tank"
        (storagePoolInitDataset "tank") := by
  decide

/-- Claim C4 (amended): `zpool destroy` is suppressed only when the recorded
dataset contains a `/`; deletion of a pool created from a loop file (absolute
non-block-device source, no dataset) removes the backing file, while a
block-device source is never removed. -/
theorem claim_C4 (isBlockdev : String → Bool) (poolName source : String) :
    (containsChar (storagePoolInitDataset source) '/' = true →
      ∀ p, PoolOp.zpoolDestroy p ∉
        StoragePoolDelete isBlockdev poolName source
          (storagePoolInitDataset source)) ∧
    (storagePoolInitDataset source = "" → IsAbs source = true →
      isBlockdev source = false →
      PoolOp.removeVdevFile source ∈
        StoragePoolDelete isBlockdev poolName source
          (storagePoolInitDataset source)) ∧
    (isBlockdev source = true →
      ∀ p, PoolOp.removeVdevFile p ∉
        StoragePoolDelete isBlockdev poolName source
          (storagePoolInitDataset source)) := by
  refine ⟨?_, ?_, ?_⟩
  · intro hslash p
    unfold StoragePoolDelete
    have hne : storagePoolInitDataset source ≠ "" := by
      intro h0
      rw [h0] at hslash
      simp [containsChar] at hslash
    simp [hne, hslash, containsChar] at hslash ⊢
    simp [hslash]
  · intro hds habs hblk
    unfold StoragePoolDelete zfsPoolDelete
    simp [hds, habs, hblk]
  · intro hblk p
    unfold StoragePoolDelete zfsPoolDelete
    split_ifs <;> simp_all

/-- Witness for claim C4 (amended) at a concrete loop-file pool. -/
theorem claim_C4_witness :
    PoolOp.removeVdevFile "/var/lib/lxd/disks/p.img" ∈
      StoragePoolDelete (fun _ => false) "p" "/var/lib/lxd/disks/p.img"
        (storagePoolInitDataset "/var/lib/lxd/disks/p.img") :=
  (claim_C4 (fun _ => false) "p" "/var/lib/lxd/disks/p.img").2.1
    (by decide) (by decide) rfl

/-- Oracle for one iteration of the `zfsPoolVolumeRename` retry loop: the
outcome of the `zfs rename` subprocess and the answers of the `zfs get name`
probes that `zfsPoolVolumeExists` performs after a failure. -/
structure RenameAttempt where
  renameOk : Bool
  renameOutput : String
  getNameSource : String
  getNameDest : String

/-- `zfsPoolVolumeExists`: reads the `name` property (its raw output even on
error) and compares it to `<pool>/<path>`. -/
def zfsPoolVolumeExists (poolName path getNameOutput : String) : Bool :=
  getNameOutput == poolName ++ "/" ++ path

/-- The retry loop of `zfsPoolVolumeRename`: try `zfs rename`; stop on
success, or when the source is gone while the destination exists; otherwise
retry (after a 500 ms sleep, not modelled), failing with the last output when
the attempts are exhausted. -/
def zfsPoolVolumeRenameLoop (env : Nat → RenameAttempt)
    (poolName source dest lastOutput : String) (i : Nat) :
    Nat → Except String Unit
  | 0 => .error ("Failed to rename ZFS filesystem: " ++ lastOutput)
  | remaining + 1 =>
    let output := (env i).renameOutput
    if (env i).renameOk then .ok ()
    else if !zfsPoolVolumeExists poolName source (env i).getNameSource &&
        zfsPoolVolumeExists poolName dest (env i).getNameDest then .ok ()
    else zfsPoolVolumeRenameLoop env poolName source dest output (i + 1) remaining

/-- `zfsPoolVolumeRename`: 20 attempts starting from an empty output
buffer. -/
def zfsPoolVolumeRename (env : Nat → RenameAttempt)
    (poolName source dest : String) : Except String Unit :=
  zfsPoolVolumeRenameLoop env poolName source dest "" 0 20

/-- Attempt `i` of the rename loop ends the loop successfully: the subprocess
succeeded, or the source no longer exists while the destination does. -/
def renameAttemptOk (env : Nat → RenameAttempt)
    (poolName source dest : String) (i : Nat) : Bool :=
  (env i).renameOk ||
    (!zfsPoolVolumeExists poolName source (env i).getNameSource &&
      zfsPoolVolumeExists poolName dest (env i).getNameDest)

theorem zfsPoolVolumeRenameLoop_ok_iff (env : Nat → RenameAttempt)
    (poolName source dest : String) :
    ∀ remaining i lastOutput,
      (zfsPoolVolumeRenameLoop env poolName source dest lastOutput i remaining =
        .ok ()) ↔
      ∃ j < remaining, renameAttemptOk env poolName source dest (i + j) = true := by
  intro remaining
  induction remaining with
  | zero => intro i lastOutput; simp [zfsPoolVolumeRenameLoop]
  | succ r ih =>
    intro i lastOutput
    unfold zfsPoolVolumeRenameLoop
    dsimp only
    by_cases h1 : (env i).renameOk
    · simp only [if_pos h1]
      constructor
      · intro _
        exact ⟨0, Nat.succ_pos r, by simp [renameAttemptOk, h1]⟩
      · intro _; trivial
    · simp only [if_neg h1]
      by_cases h2 : (!zfsPoolVolumeExists poolName source (env i).getNameSource &&
          zfsPoolVolumeExists poolName dest (env i).getNameDest) = true
      · simp only [if_pos h2]
        constructor
        · intro _
          exact ⟨0, Nat.succ_pos r, by simp [renameAttemptOk, h1, h2]⟩
        · intro _; trivial
      · simp only [if_neg h2]
        rw [ih (i + 1) (env i).renameOutput]
        constructor
        · rintro ⟨j, hj, hok⟩
          exact ⟨j + 1, by omega, by rw [show i + (j + 1) = i + 1 + j by omega]; exact hok⟩
        · rintro ⟨j, hj, hok⟩
          match j with
          | 0 =>
            exfalso
            simp only [Nat.add_zero] at hok
            simp [renameAttemptOk, h1, h2] at hok
          | j' + 1 =>
            exact ⟨j', by omega, by rw [show i + 1 + j' = i + (j' + 1) by omega]; exact hok⟩

theorem zfsPoolVolumeRenameLoop_error (env : Nat → RenameAttempt)
    (poolName source dest : String) :
    ∀ remaining i lastOutput,
      (∀ j < remaining + 1,
        renameAttemptOk env poolName source dest (i + j) = false) →
      zfsPoolVolumeRenameLoop env poolName source dest lastOutput i
          (remaining + 1) =
        .error ("Failed to rename ZFS filesystem: " ++
          (env (i + remaining)).renameOutput) := by
  intro remaining
  induction remaining with
  | zero =>
    intro i lastOutput hall
    have h0 : renameAttemptOk env poolName source dest (i + 0) = false :=
      hall 0 Nat.one_pos
    simp only [Nat.add_zero, renameAttemptOk, Bool.or_eq_false_iff] at h0
    unfold zfsPoolVolumeRenameLoop
    dsimp only
    rw [if_neg (by simp [h0.1]), if_neg (by simp [h0.2])]
    rfl
  | succ r ih =>
    intro i lastOutput hall
    have h0 : renameAttemptOk env poolName source dest (i + 0) = false :=
      hall 0 (Nat.succ_pos _)
    simp only [Nat.add_zero, renameAttemptOk, Bool.or_eq_false_iff] at h0
    unfold zfsPoolVolumeRenameLoop
    dsimp only
    rw [if_neg (by simp [h0.1]), if_neg (by simp [h0.2])]
    rw [ih (i + 1) (env i).renameOutput
      (fun j hj => by
        rw [show i + 1 + j = i + (j + 1) by omega]
        exact hall (j + 1) (by omega))]
    rw [show i + 1 + r = i + (r + 1) by omega]

/-- Claim C8: the rename operation succeeds exactly when some of its 20
attempts either has its `zfs rename` succeed or, after a failure, finds the
source gone while the destination exists; when all 20 attempts fail, it
returns an error containing the last command output. -/
theorem claim_C8 (env : Nat → RenameAttempt) (poolName source dest : String) :
    ((zfsPoolVolumeRename env poolName source dest = .ok ()) ↔
      ∃ i < 20, renameAttemptOk env poolName source dest i = true) ∧
    ((∀ i < 20, renameAttemptOk env poolName source dest i = false) →
      zfsPoolVolumeRename env poolName source dest =
        .error ("Failed to rename ZFS filesystem: " ++ (env 19).renameOutput)) := by
  constructor
  · rw [zfsPoolVolumeRename, zfsPoolVolumeRenameLoop_ok_iff]
    simp
  · intro hall
    rw [zfsPoolVolumeRename,
      zfsPoolVolumeRenameLoop_error env poolName source dest 19 0 ""
        (fun j hj => by simpa using hall j (by omega))]

/-- Witness for claim C8: an environment where every attempt fails and
neither existence check rescues it. -/
theorem claim_C8_witness :
    ((zfsPoolVolumeRename (fun _ => ⟨false, "dataset is busy", "t/a", "t/a"⟩) "t" "a" "b" =
        .ok ()) ↔
      ∃ i < 20,
        renameAttemptOk (fun _ => ⟨false, "dataset is busy", "t/a", "t/a"⟩) "t" "a" "b" i =
          true) ∧
    ((∀ i < 20,
        renameAttemptOk (fun _ => ⟨false, "dataset is busy", "t/a", "t/a"⟩) "t" "a" "b" i =
          false) →
      zfsPoolVolumeRename (fun _ => ⟨false, "dataset is busy", "t/a", "t/a"⟩) "t" "a" "b" =
        .error ("Failed to rename ZFS filesystem: " ++ "dataset is busy")) :=
  claim_C8 (fun _ => ⟨false, "dataset is busy", "t/a", "t/a"⟩) "t" "a" "b"

/-- The loop of `SendWhileRunning` over the container's ZFS snapshot names:
each entry of the result is a `zfs send` invocation, as the pair
`(snapshot sent, -i parent)` where an empty parent means the `-i` flag is
absent; also returns the final value of the Go `lastSnap` variable.  `prev`
and `lastSnap` mirror the Go loop variables. -/
def sendWhileRunningLoop (prev lastSnap : String) :
    List String → List (String × String) × String
  | [] => ([], lastSnap)
  | snap :: rest =>
    let r := sendWhileRunningLoop snap snap rest
    ((snap, prev) :: r.1, r.2)

/-- Trace of `SendWhileRunning` on a non-snapshot container. -/
structure MigrationTrace where
  sends : List (String × String)
  createdSnapshots : List String
  runningSnapName : String
deriving DecidableEq

/-- `SendWhileRunning` (non-snapshot container): sends each listed snapshot
with `-i` against its predecessor (none for the first), then creates
`migration-send-<uuid>` on the container and sends it against the last listed
snapshot, recording the created name as `runningSnapName`. -/
def SendWhileRunning (zfsSnapshotNames : List String) (uuid : String) :
    MigrationTrace :=
  let r := sendWhileRunningLoop "" "" zfsSnapshotNames
  let runningSnapName := "migration-send-" ++ uuid
  { sends := r.1 ++ [(runningSnapName, r.2)]
    createdSnapshots := [runningSnapName]
    runningSnapName := runningSnapName }

theorem sendWhileRunningLoop_sends (names : List String) :
    ∀ prev lastSnap,
      (sendWhileRunningLoop prev lastSnap names).1 = names.zip (prev :: names) := by
  induction names with
  | nil => intro prev lastSnap; rfl
  | cons snap rest ih =>
    intro prev lastSnap
    simp only [sendWhileRunningLoop, List.zip_cons_cons, ih snap snap]

theorem sendWhileRunningLoop_last (names : List String) :
    ∀ prev lastSnap,
      (sendWhileRunningLoop prev lastSnap names).2 = names.getLastD lastSnap := by
  induction names with
  | nil => intro prev lastSnap; rfl
  | cons snap rest ih =>
    intro prev lastSnap
    simp only [sendWhileRunningLoop, ih snap snap, List.getLastD_cons]

theorem getLastD_mem_of_ne_nil (l : List String) (d : String) (h : l ≠ []) :
    l.getLastD d ∈ l := by
  induction l generalizing d with
  | nil => exact absurd rfl h
  | cons a t ih =>
    rw [List.getLastD_cons]
    match t with
    | [] => simp [List.getLastD]
    | b :: t2 => exact List.mem_cons_of_mem a (ih a (by simp))

/-- Claim C5: for snapshot name list `[snap_1, ..., snap_n]` in creation
order, `SendWhileRunning` sends each `snap_i` in that order with parent
`snap_(i-1)` (no parent for the first), then creates and sends
`migration-send-<uuid>` with the last snapshot as parent (none when `n = 0`),
recording the name as `runningSnapName`; the `-i` flag is absent exactly on
the first send. -/
theorem claim_C5 (names : List String) (uuid : String)
    (h : ∀ n ∈ names, n ≠ "") :
    (SendWhileRunning names uuid).sends =
      names.zip ("" :: names) ++
        [("migration-send-" ++ uuid, names.getLastD "")] ∧
    (SendWhileRunning names uuid).runningSnapName = "migration-send-" ++ uuid ∧
    (SendWhileRunning names uuid).createdSnapshots =
      ["migration-send-" ++ uuid] ∧
    (∀ sp0, (SendWhileRunning names uuid).sends.head? = some sp0 → sp0.2 = "") ∧
    (∀ sp ∈ (SendWhileRunning names uuid).sends.tail, sp.2 ≠ "") := by
  have hs : (SendWhileRunning names uuid).sends =
      names.zip ("" :: names) ++
        [("migration-send-" ++ uuid, names.getLastD "")] := by
    unfold SendWhileRunning
    simp only [sendWhileRunningLoop_sends, sendWhileRunningLoop_last]
  refine ⟨hs, rfl, rfl, ?_, ?_⟩
  · intro sp0 hhead
    rw [hs] at hhead
    match hnames : names with
    | [] =>
      simp only [hnames, List.zip_nil_left, List.nil_append, List.head?_cons,
        Option.some.injEq] at hhead
      rw [← hhead]
      rfl
    | n1 :: rest =>
      simp only [List.zip_cons_cons, List.cons_append, List.head?_cons,
        Option.some.injEq] at hhead
      rw [← hhead]
  · intro sp hsp
    rw [hs] at hsp
    match hnames : names with
    | [] => simp at hsp
    | n1 :: rest =>
      simp only [List.zip_cons_cons, List.cons_append, List.tail_cons] at hsp
      rcases List.mem_append.1 hsp with hz | hfin
      · have := List.of_mem_zip hz
        exact h sp.2 this.2
      · simp only [List.mem_singleton] at hfin
        rw [hfin]
        dsimp only
        have hmem : (n1 :: rest).getLastD "" ∈ n1 :: rest :=
          getLastD_mem_of_ne_nil (n1 :: rest) "" (by simp)
        exact h _ hmem

/-- Witness for claim C5 at a concrete two-snapshot container. -/
theorem claim_C5_witness :
    (SendWhileRunning ["snapshot-s1", "snapshot-s2"] "u").sends =
      ["snapshot-s1", "snapshot-s2"].zip ("" :: ["snapshot-s1", "snapshot-s2"]) ++
        [("migration-send-" ++ "u",
          (["snapshot-s1", "snapshot-s2"] : List String).getLastD "")] ∧
    (SendWhileRunning ["snapshot-s1", "snapshot-s2"] "u").runningSnapName =
      "migration-send-" ++ "u" ∧
    (SendWhileRunning ["snapshot-s1", "snapshot-s2"] "u").createdSnapshots =
      ["migration-send-" ++ "u"] ∧
    (∀ sp0, (SendWhileRunning ["snapshot-s1", "snapshot-s2"] "u").sends.head? =
      some sp0 → sp0.2 = "") ∧
    (∀ sp ∈ (SendWhileRunning ["snapshot-s1", "snapshot-s2"] "u").sends.tail,
      sp.2 ≠ "") :=
  claim_C5 ["snapshot-s1", "snapshot-s2"] "u" (by decide)

/-- The deletion loop of `ContainerRestore`: Go iterates `i` downwards from
`len(snaps)-1` while `i != 0`, breaking at the chosen source snapshot and
deleting `snaps[i]` otherwise; index 0 is never examined.  The argument is the
current index; the out-of-bounds case cannot be reached from the entry point,
which starts the loop at `len(snaps)-1` on a non-empty list. -/
def containerRestoreDeleteGo (snaps : List String) (sourceName : String) :
    Nat → List String
  | 0 => []
  | i + 1 =>
    match snaps[i + 1]? with
    | none => []
    | some name =>
      if name == sourceName then []
      else name :: containerRestoreDeleteGo snaps sourceName i

/-- `zfsPoolVolumeSnapshotRestore`: `zfs rollback` on `<pool>/<path>@<name>`,
then on every sub-dataset of `<path>` (the `subvols` oracle answers
`zfs list -r`) that has a snapshot with the identical name (the `subSnaps`
oracle answers `zfs list -t snapshot`). -/
def zfsPoolVolumeSnapshotRestore (subvols : List String)
    (subSnaps : String → List String) (poolName path name : String) :
    List String :=
  (poolName ++ "/" ++ path ++ "@" ++ name) ::
    (subvols.filter (fun sub => StringInSlice name (subSnaps sub))).map
      (fun sub => poolName ++ "/" ++ sub ++ "@" ++ name)

/-- Trace of `ContainerRestore`: the manager-level snapshots deleted, in
deletion order, and the datasets rolled back, in order. -/
structure RestoreTrace where
  deleted : List String
  rollbacks : List String
deriving DecidableEq

/-- `ContainerRestore`: delete the manager-level snapshots newer than the
chosen one (Go panics on an empty snapshot list: the loop starts at index
`-1`; and on a source name without the snapshot delimiter: `fields[1]`),
then roll back the root dataset and identically-named sub-dataset
snapshots. -/
def ContainerRestore (subvols : List String) (subSnaps : String → List String)
    (poolName : String) (snaps : List String) (sourceContainerName : String) :
    Option RestoreTrace :=
  if snaps.isEmpty then none
  else
    let deleted :=
      containerRestoreDeleteGo snaps sourceContainerName (snaps.length - 1)
    let fields := splitN2 sourceContainerName SnapshotDelimiter
    if fields.length < 2 then none
    else
      let cName := fields.getD 0 ""
      let snapName := "snapshot-" ++ fields.getD 1 ""
      some ⟨deleted,
        zfsPoolVolumeSnapshotRestore subvols subSnaps poolName
          ("containers/" ++ cName) snapName⟩

theorem containerRestoreDeleteGo_eq (snaps : List String) (sourceName : String)
    (k : Nat) (hk : k < snaps.length)
    (hwit : snaps[k] = sourceName) (hnodup : snaps.Nodup) :
    ∀ i, i < snaps.length → k ≤ i →
      containerRestoreDeleteGo snaps sourceName i =
        ((snaps.take (i + 1)).drop (k + 1)).reverse := by
  intro i
  induction i with
  | zero =>
    intro _ hki
    have hk0 : k = 0 := Nat.le_zero.1 hki
    subst hk0
    rw [containerRestoreDeleteGo]
    rw [List.drop_eq_nil_of_le (by simp)]
    rfl
  | succ i ih =>
    intro hi hki
    rw [containerRestoreDeleteGo]
    rw [List.getElem?_eq_getElem hi]
    dsimp only
    by_cases hksucc : k = i + 1
    · subst hksucc
      rw [if_pos (by simp [hwit])]
      rw [List.drop_eq_nil_of_le (by simp)]
      rfl
    · have hki' : k ≤ i := by omega
      have hne : ¬snaps[i + 1] = sourceName := by
        intro heq
        rw [← hwit] at heq
        exact hksucc ((List.Nodup.getElem_inj_iff hnodup).1 heq).symm
      rw [if_neg (by simpa using hne)]
      rw [ih (by omega) hki']
      have htake : snaps.take (i + 1 + 1) = snaps.take (i + 1) ++ [snaps[i + 1]] := by
        rw [List.take_succ, List.getElem?_eq_getElem hi]
        rfl
      rw [htake,
        List.drop_append_of_le_length
          (by rw [List.length_take]; omega),
        List.reverse_append]
      rfl

/-- Claim C3: when the creation-ascending snapshot list contains the chosen
restore snapshot at position `k` (names distinct), `ContainerRestore` deletes
exactly the snapshots strictly newer than the chosen one, newest first,
leaves those at or before position `k` alone, and rolls back
`containers/<n>@snapshot-<s>` followed by every sub-dataset with an
identically named snapshot. -/
theorem claim_C3 (subvols : List String) (subSnaps : String → List String)
    (poolName : String) (snaps : List String) (sourceContainerName : String)
    (k : Nat) (hk : k < snaps.length)
    (hwit : snaps[k] = sourceContainerName) (hnodup : snaps.Nodup)
    (hdelim : 2 ≤ (splitN2 sourceContainerName SnapshotDelimiter).length) :
    ∃ t, ContainerRestore subvols subSnaps poolName snaps sourceContainerName =
        some t ∧
      t.deleted = (snaps.drop (k + 1)).reverse ∧
      (∀ j, j ≤ k → ∀ hj : j < snaps.length, snaps[j] ∉ t.deleted) ∧
      t.rollbacks =
        zfsPoolVolumeSnapshotRestore subvols subSnaps poolName
          ("containers/" ++
            (splitN2 sourceContainerName SnapshotDelimiter).getD 0 "")
          ("snapshot-" ++
            (splitN2 sourceContainerName SnapshotDelimiter).getD 1 "") := by
  have hne : snaps.isEmpty = false := by
    cases snaps with
    | nil => simp at hk
    | cons a t => rfl
  have hlen : snaps.length - 1 < snaps.length := by
    cases snaps with
    | nil => simp at hk
    | cons a t => simp
  have hdel : containerRestoreDeleteGo snaps sourceContainerName
      (snaps.length - 1) = (snaps.drop (k + 1)).reverse := by
    rw [containerRestoreDeleteGo_eq snaps sourceContainerName k hk hwit hnodup
      (snaps.length - 1) hlen (by omega)]
    rw [show snaps.length - 1 + 1 = snaps.length by omega, List.take_length]
  refine ⟨⟨(snaps.drop (k + 1)).reverse,
    zfsPoolVolumeSnapshotRestore subvols subSnaps poolName
      ("containers/" ++
        (splitN2 sourceContainerName SnapshotDelimiter).getD 0 "")
      ("snapshot-" ++
        (splitN2 sourceContainerName SnapshotDelimiter).getD 1 "")⟩,
    ?_, rfl, ?_, rfl⟩
  · unfold ContainerRestore
    rw [hne]
    simp only [Bool.false_eq_true, if_false]
    rw [if_neg (by omega)]
    rw [hdel]
  · intro j hj hjlen hmem
    rw [List.mem_reverse] at hmem
    rcases List.mem_iff_getElem.1 hmem with ⟨m, hm, hmeq⟩
    rw [List.getElem_drop] at hmeq
    have : k + 1 + m = j := by
      rw [List.length_drop] at hm
      exact (List.Nodup.getElem_inj_iff hnodup).1 hmeq
    omega

/-- Witness for claim C3 at a three-snapshot container restored to the middle
snapshot. -/
theorem claim_C3_witness :
    ∃ t, ContainerRestore ["containers/c/sub"] (fun _ => ["snapshot-s2"]) "p"
        ["c/s1", "c/s2", "c/s3"] "c/s2" = some t ∧
      t.deleted = ((["c/s1", "c/s2", "c/s3"] : List String).drop (1 + 1)).reverse ∧
      (∀ j, j ≤ 1 → ∀ hj : j < (["c/s1", "c/s2", "c/s3"] : List String).length,
        (["c/s1", "c/s2", "c/s3"] : List String)[j] ∉ t.deleted) ∧
      t.rollbacks =
        zfsPoolVolumeSnapshotRestore ["containers/c/sub"]
          (fun _ => ["snapshot-s2"]) "p"
          ("containers/" ++ (splitN2 "c/s2" SnapshotDelimiter).getD 0 "")
          ("snapshot-" ++ (splitN2 "c/s2" SnapshotDelimiter).getD 1 "") :=
  claim_C3 ["containers/c/sub"] (fun _ => ["snapshot-s2"]) "p"
    ["c/s1", "c/s2", "c/s3"] "c/s2" 1 (by decide) (by decide) (by decide)
    (by decide)

/-- Go `strings.TrimPrefix`. -/
def trimPrefixStr (s pre : String) : String :=
  if pre.data.isPrefixOf s.data then ⟨s.data.drop pre.data.length⟩ else s

/-- The dataset-or-snapshot argument `zfsPoolVolumeSnapshotRemovable` passes
to `zfs get clones`: the path itself when the name is empty (the graveyard
filesystem case), `<path>@<name>` otherwise. -/
def snapSpec (path name : String) : String :=
  if name == "" then path else path ++ "@" ++ name

/-- `zfsPoolVolumeSnapshotRemovable`: a snapshot (or graveyard filesystem) is
removable iff its `clones` property is `-` or empty; `getClones` is the
`zfs get clones` oracle, `none` modelling a failing subprocess. -/
def zfsPoolVolumeSnapshotRemovable (getClones : String → Option String)
    (path name : String) : Except String Bool :=
  match getClones (snapSpec path name) with
  | none => .error "Failed to get ZFS config"
  | some clones => .ok (clones == "-" || clones == "")

/-- Oracle state for `ContainerDelete`: whether `containers/<n>` exists, its
snapshot list, the `clones` property oracle, and its `origin` property
(`none` models a failing `zfs get`). -/
structure ContainerDeleteInfo where
  containerExists : Bool
  snaps : List String
  clones : String → Option String
  origin : Option String

/-- The removability loop of `ContainerDelete`: `removable` starts `true`,
is recomputed for each snapshot and the loop breaks at the first
non-removable one; a failing `zfs get` aborts the whole delete. -/
def containerDeleteRemovableLoop (getClones : String → Option String)
    (fs : String) : List String → Except String Bool
  | [] => .ok true
  | snap :: rest =>
    match zfsPoolVolumeSnapshotRemovable getClones fs snap with
    | .error e => .error e
    | .ok removable =>
      if removable then containerDeleteRemovableLoop getClones fs rest
      else .ok false

/-- Operations recorded by the `ContainerDelete` model. -/
inductive DelOp where
  | destroy (path : String)
  | cleanup (path : String)
  | setMountpoint (path : String) (value : String)
  | rename (src : String) (dst : String)
deriving DecidableEq

/-- `ContainerDelete` (ZFS portion): when `containers/<n>` exists, destroy it
and clean up its origin if every snapshot is removable, otherwise set its
mountpoint to `none` and rename it into `deleted/containers/<uuid>`.  The
best-effort destroy of the parallel `snapshots/<n>` dataset that follows in
every branch is recorded last; the remaining manager-side mountpoint and
symlink removal performs no ZFS operation and is not traced. -/
def ContainerDelete (info : ContainerDeleteInfo)
    (poolName containerName uuid : String) : Except String (List DelOp) :=
  let fs := "containers/" ++ containerName
  let snapshotZfsDataset := "snapshots/" ++ containerName
  if info.containerExists then
    match containerDeleteRemovableLoop info.clones fs info.snaps with
    | .error e => .error e
    | .ok removable =>
      if removable then
        match info.origin with
        | none => .error "Failed to get ZFS config"
        | some origin0 =>
          let origin := trimPrefixStr origin0 (poolName ++ "/")
          .ok [DelOp.destroy fs, DelOp.cleanup origin,
            DelOp.destroy snapshotZfsDataset]
      else
        .ok [DelOp.setMountpoint fs "none",
          DelOp.rename fs ("deleted/containers/" ++ uuid),
          DelOp.destroy snapshotZfsDataset]
  else .ok [DelOp.destroy snapshotZfsDataset]

theorem containersFs_ne_snapshotsFs (n : String) :
    ("containers/" ++ n) ≠ ("snapshots/" ++ n) := by
  intro h
  have hlen := congrArg String.length h
  rw [String.length_append, String.length_append] at hlen
  have h1 : "containers/".length = 11 := rfl
  have h2 : "snapshots/".length = 10 := rfl
  omega

theorem containerDeleteRemovableLoop_spec (getClones : String → Option String)
    (fs : String) :
    ∀ snaps : List String,
      (∀ snap ∈ snaps, (getClones (snapSpec fs snap)).isSome = true) →
      ∃ b, containerDeleteRemovableLoop getClones fs snaps = .ok b ∧
        (b = true ↔ ∀ snap ∈ snaps,
          getClones (snapSpec fs snap) = some "-" ∨
            getClones (snapSpec fs snap) = some "") := by
  intro snaps
  induction snaps with
  | nil => intro _; exact ⟨true, rfl, by simp⟩
  | cons snap rest ih =>
    intro h
    have hhead : (getClones (snapSpec fs snap)).isSome = true :=
      h snap (List.mem_cons_self snap rest)
    rcases Option.isSome_iff_exists.1 hhead with ⟨c, hc⟩
    rcases ih (fun s hs => h s (List.mem_cons_of_mem snap hs)) with ⟨b, hb, hiff⟩
    by_cases hrem : (c == "-" || c == "") = true
    · refine ⟨b, ?_, ?_⟩
      · unfold containerDeleteRemovableLoop zfsPoolVolumeSnapshotRemovable
        rw [hc]
        dsimp only
        rw [if_pos hrem]
        exact hb
      · rw [hiff]
        constructor
        · intro hall s hs
          rcases List.mem_cons.1 hs with hs1 | hs2
          · subst hs1
            rw [hc]
            rcases Bool.or_eq_true_iff.1 hrem with h1 | h1
            · exact Or.inl (by rw [beq_iff_eq] at h1; rw [h1])
            · exact Or.inr (by rw [beq_iff_eq] at h1; rw [h1])
          · exact hall s hs2
        · intro hall s hs
          exact hall s (List.mem_cons_of_mem snap hs)
    · refine ⟨false, ?_, ?_⟩
      · unfold containerDeleteRemovableLoop zfsPoolVolumeSnapshotRemovable
        rw [hc]
        dsimp only
        rw [if_neg hrem]
      · simp only [Bool.false_eq_true, false_iff]
        intro hall
        rcases hall snap (List.mem_cons_self snap rest) with h1 | h1 <;>
          rw [hc] at h1 <;>
          rcases Option.some.injEq _ _ ▸ h1 with h2 <;>
          simp [Option.some.injEq] at h1 <;>
          simp [h1] at hrem

/-- Claim C1: when `containers/<n>` exists, `ContainerDelete` destroys the
dataset (and then runs cleanup on its origin) if and only if every snapshot
of the dataset has an empty or `-` clones property; otherwise it sets the
mountpoint to `none` and renames the dataset to `deleted/containers/<uuid>`,
so a container with a cloned snapshot is never destroyed. -/
theorem claim_C1 (info : ContainerDeleteInfo)
    (poolName containerName uuid o : String)
    (hex : info.containerExists = true)
    (hclones : ∀ snap ∈ info.snaps,
      (info.clones (snapSpec ("containers/" ++ containerName) snap)).isSome = true)
    (horigin : info.origin = some o) :
    ∃ ops, ContainerDelete info poolName containerName uuid = .ok ops ∧
      (DelOp.destroy ("containers/" ++ containerName) ∈ ops ↔
        ∀ snap ∈ info.snaps,
          info.clones (snapSpec ("containers/" ++ containerName) snap) = some "-" ∨
            info.clones (snapSpec ("containers/" ++ containerName) snap) = some "") ∧
      ((∀ snap ∈ info.snaps,
          info.clones (snapSpec ("containers/" ++ containerName) snap) = some "-" ∨
            info.clones (snapSpec ("containers/" ++ containerName) snap) = some "") →
        ops = [DelOp.destroy ("containers/" ++ containerName),
          DelOp.cleanup (trimPrefixStr o (poolName ++ "/")),
          DelOp.destroy ("snapshots/" ++ containerName)]) ∧
      ((¬∀ snap ∈ info.snaps,
          info.clones (snapSpec ("containers/" ++ containerName) snap) = some "-" ∨
            info.clones (snapSpec ("containers/" ++ containerName) snap) = some "") →
        ops = [DelOp.setMountpoint ("containers/" ++ containerName) "none",
          DelOp.rename ("containers/" ++ containerName)
            ("deleted/containers/" ++ uuid),
          DelOp.destroy ("snapshots/" ++ containerName)]) := by
  rcases containerDeleteRemovableLoop_spec info.clones
    ("containers/" ++ containerName) info.snaps hclones with ⟨b, hloop, hiff⟩
  by_cases hcond : ∀ snap ∈ info.snaps,
      info.clones (snapSpec ("containers/" ++ containerName) snap) = some "-" ∨
        info.clones (snapSpec ("containers/" ++ containerName) snap) = some ""
  · have hb : b = true := hiff.2 hcond
    subst hb
    refine ⟨[DelOp.destroy ("containers/" ++ containerName),
      DelOp.cleanup (trimPrefixStr o (poolName ++ "/")),
      DelOp.destroy ("snapshots/" ++ containerName)], ?_, ?_, ?_, ?_⟩
    · unfold ContainerDelete
      rw [hex]
      dsimp only
      rw [hloop]
      dsimp only
      rw [horigin]
      rfl
    · constructor
      · intro _; exact hcond
      · intro _; exact List.mem_cons_self _ _
    · intro _; rfl
    · intro hn; exact absurd hcond hn
  · have hb : b = false := by
      cases b with
      | true => exact absurd (hiff.1 rfl) hcond
      | false => rfl
    subst hb
    refine ⟨[DelOp.setMountpoint ("containers/" ++ containerName) "none",
      DelOp.rename ("containers/" ++ containerName)
        ("deleted/containers/" ++ uuid),
      DelOp.destroy ("snapshots/" ++ containerName)], ?_, ?_, ?_, ?_⟩
    · unfold ContainerDelete
      rw [hex]
      dsimp only
      rw [hloop]
      dsimp only
      rfl
    · constructor
      · intro h1
        exfalso
        simp only [List.mem_cons, List.not_mem_nil, or_false] at h1
        rcases h1 with h1 | h1 | h1
        · exact DelOp.noConfusion h1
        · exact DelOp.noConfusion h1
        · exact containersFs_ne_snapshotsFs containerName (DelOp.destroy.inj h1)
      · intro h1; exact absurd h1 hcond
    · intro h1; exact absurd h1 hcond
    · intro _; rfl

/-- Witness for claim C1 at a container with one clone-free snapshot. -/
theorem claim_C1_witness :
    ∃ ops, ContainerDelete ⟨true, ["s1"], fun _ => some "-",
        some "p/images/abc@readonly"⟩ "p" "c" "u" = .ok ops ∧
      (DelOp.destroy ("containers/" ++ "c") ∈ ops ↔
        ∀ snap ∈ ["s1"],
          (fun _ => some "-") (snapSpec ("containers/" ++ "c") snap) = some "-" ∨
            (fun _ => some "-") (snapSpec ("containers/" ++ "c") snap) = some "") ∧
      ((∀ snap ∈ ["s1"],
          (fun _ => some "-") (snapSpec ("containers/" ++ "c") snap) = some "-" ∨
            (fun _ => some "-") (snapSpec ("containers/" ++ "c") snap) = some "") →
        ops = [DelOp.destroy ("containers/" ++ "c"),
          DelOp.cleanup (trimPrefixStr "p/images/abc@readonly" ("p" ++ "/")),
          DelOp.destroy ("snapshots/" ++ "c")]) ∧
      ((¬∀ snap ∈ ["s1"],
          (fun _ => some "-") (snapSpec ("containers/" ++ "c") snap) = some "-" ∨
            (fun _ => some "-") (snapSpec ("containers/" ++ "c") snap) = some "") →
        ops = [DelOp.setMountpoint ("containers/" ++ "c") "none",
          DelOp.rename ("containers/" ++ "c") ("deleted/containers/" ++ "u"),
          DelOp.destroy ("snapshots/" ++ "c")]) :=
  claim_C1 ⟨true, ["s1"], fun _ => some "-", some "p/images/abc@readonly"⟩
    "p" "c" "u" "p/images/abc@readonly" rfl (by decide) rfl

/-- Program counter of one `ContainerMount` caller in the single-flight
protocol of `lxdStorageOngoingOperationMap`.  Each constructor is one atomic
region of the Go code: `start` is the first lock-protected section (check the
map, either wait or insert a fresh channel), `mounting` is the mount work of
the unique map-entry owner (`IsMountPoint` check plus `zfs mount`, which only
the owner can execute while its entry is in the map; the mount is modelled as
succeeding), `finishing` is the second lock-protected section (close the
channel, delete the entry) carrying the pending `ourMount` value, `waiting`
blocks on the rendezvous channel, and `done` holds the returned
`didWork`. -/
inductive MPC where
  | start
  | waiting
  | mounting
  | finishing (ourMount : Bool)
  | done (didWork : Bool)
deriving DecidableEq

/-- One caller: its program counter and whether it ever blocked on the
rendezvous channel. -/
structure MThread where
  pc : MPC
  waited : Bool
deriving DecidableEq

/-- Global state of `n` concurrent `ContainerMount` callers for one
`(pool, name)` lock key: the callers, the owner of the channel currently in
the process-wide map (if any), whether the dataset is mounted
(`IsMountPoint`), and the number of `zfs mount` invocations so far. -/
structure MState (n : Nat) where
  threads : Fin n → MThread
  entry : Option (Fin n)
  mounted : Bool
  mountCount : Nat

/-- One atomic step of caller `t`; callers at `waiting` are released by the
owner's `finishing` step (the channel close), and `done` callers have
returned. -/
def stepThread {n : Nat} (s : MState n) (t : Fin n) : MState n :=
  match (s.threads t).pc with
  | .start =>
    match s.entry with
    | some _ =>
      { s with threads := fun u => if u = t then ⟨.waiting, true⟩ else s.threads u }
    | none =>
      { s with
        entry := some t
        threads := fun u =>
          if u = t then ⟨.mounting, (s.threads u).waited⟩ else s.threads u }
  | .mounting =>
    if s.mounted then
      { s with threads := fun u =>
          if u = t then ⟨.finishing false, (s.threads u).waited⟩ else s.threads u }
    else
      { s with
        mounted := true
        mountCount := s.mountCount + 1
        threads := fun u =>
          if u = t then ⟨.finishing true, (s.threads u).waited⟩ else s.threads u }
  | .finishing b =>
    { s with
      entry := none
      threads := fun u =>
        if u = t then ⟨.done b, (s.threads u).waited⟩
        else if (s.threads u).pc = .waiting then ⟨.done false, (s.threads u).waited⟩
        else s.threads u }
  | .waiting => s
  | .done _ => s

/-- All callers at `start`, nothing in the map, dataset not mounted. -/
def initMState (n : Nat) : MState n :=
  { threads := fun _ => ⟨.start, false⟩
    entry := none
    mounted := false
    mountCount := 0 }

/-- Run an arbitrary interleaving, given as the list of thread choices. -/
def runSchedule {n : Nat} (s : MState n) : List (Fin n) → MState n
  | [] => s
  | t :: rest => runSchedule (stepThread s t) rest

/-- The caller holding the unique `didWork = true` token: it has either
already returned `true` or is about to. -/
def isHolder {n : Nat} (s : MState n) (t : Fin n) : Prop :=
  (s.threads t).pc = .done true ∨ (s.threads t).pc = .finishing true

/-- Inductive invariant of the single-flight protocol. -/
structure MInv {n : Nat} (s : MState n) : Prop where
  count_eq : s.mountCount = if s.mounted then 1 else 0
  owner : ∀ t, ((s.threads t).pc = .mounting ∨ ∃ b, (s.threads t).pc = .finishing b) →
    s.entry = some t
  premount : s.mounted = false →
    ∀ t, (s.threads t).pc = .start ∨ (s.threads t).pc = .waiting ∨
      (s.threads t).pc = .mounting
  holder : s.mounted = true →
    ∃ t0, isHolder s t0 ∧ ∀ u, isHolder s u → u = t0
  waited_painted : ∀ t, (s.threads t).waited = true →
    (s.threads t).pc = .waiting ∨ (s.threads t).pc = .done false

theorem MInv_init (n : Nat) : MInv (initMState n) := by
  refine ⟨rfl, ?_, ?_, ?_, ?_⟩
  · intro t ht
    rcases ht with h | ⟨b, h⟩ <;> exact absurd h (by simp [initMState])
  · intro _ t; exact Or.inl rfl
  · intro h; exact absurd h (by simp [initMState])
  · intro t h; exact absurd h (by simp [initMState])

theorem MInv_step {n : Nat} (s : MState n) (t : Fin n) (h : MInv s) :
    MInv (stepThread s t) := by
  rcases hpc : (s.threads t).pc with _ | _ | _ | b | b
  case start =>
    rcases hent : s.entry with _ | o
    case none =>
      -- t inserts a fresh channel and becomes the owner.
      have hstep : stepThread s t =
          { s with
            entry := some t
            threads := fun u =>
              if u = t then ⟨.mounting, (s.threads u).waited⟩ else s.threads u } := by
        unfold stepThread
        rw [hpc, hent]
      rw [hstep]
      refine ⟨h.count_eq, ?_, ?_, ?_, ?_⟩
      · intro u hu
        by_cases hut : u = t
        · rw [hut]
        · exfalso
          have hu2 : (s.threads u).pc = .mounting ∨
              ∃ b, (s.threads u).pc = .finishing b := by
            simpa [hut] using hu
          have hcontra := h.owner u hu2
          rw [hent] at hcontra
          exact Option.noConfusion hcontra
      · intro hm u
        by_cases hut : u = t
        · rw [hut]; simp
        · simpa [hut] using h.premount hm u
      · intro hm
        rcases h.holder hm with ⟨t0, ht0, huniq⟩
        have ht0t : ¬t0 = t := by
          intro he
          rw [he] at ht0
          rcases ht0 with h1 | h1 <;> rw [hpc] at h1 <;> exact MPC.noConfusion h1
        refine ⟨t0, ?_, ?_⟩
        · simpa [isHolder, ht0t] using ht0
        · intro u hu
          by_cases hut : u = t
          · exfalso
            rw [hut] at hu
            simp [isHolder] at hu
          · exact huniq u (by simpa [isHolder, hut] using hu)
      · intro u hu
        by_cases hut : u = t
        · exfalso
          rw [hut] at hu
          simp only [if_pos rfl] at hu
          rcases h.waited_painted t hu with h1 | h1 <;> rw [hpc] at h1 <;>
            exact MPC.noConfusion h1
        · have hu2 : (s.threads u).waited = true := by simpa [hut] using hu
          simpa [hut] using h.waited_painted u hu2
    case some =>
      -- t finds the channel of owner o and waits on it.
      have hstep : stepThread s t =
          { s with threads := fun u =>
              if u = t then ⟨.waiting, true⟩ else s.threads u } := by
        unfold stepThread
        rw [hpc, hent]
      rw [hstep]
      refine ⟨h.count_eq, ?_, ?_, ?_, ?_⟩
      · intro u hu
        by_cases hut : u = t
        · exfalso
          rw [hut] at hu
          rcases hu with h1 | ⟨b, h1⟩ <;> simp at h1
        · exact h.owner u (by simpa [hut] using hu)
      · intro hm u
        by_cases hut : u = t
        · rw [hut]; simp
        · simpa [hut] using h.premount hm u
      · intro hm
        rcases h.holder hm with ⟨t0, ht0, huniq⟩
        have ht0t : ¬t0 = t := by
          intro he
          rw [he] at ht0
          rcases ht0 with h1 | h1 <;> rw [hpc] at h1 <;> exact MPC.noConfusion h1
        refine ⟨t0, ?_, ?_⟩
        · simpa [isHolder, ht0t] using ht0
        · intro u hu
          by_cases hut : u = t
          · exfalso
            rw [hut] at hu
            simp [isHolder] at hu
          · exact huniq u (by simpa [isHolder, hut] using hu)
      · intro u hu
        by_cases hut : u = t
        · rw [hut]; simp
        · have hu2 : (s.threads u).waited = true := by simpa [hut] using hu
          simpa [hut] using h.waited_painted u hu2
  case waiting =>
    have hstep : stepThread s t = s := by
      unfold stepThread
      rw [hpc]
    rw [hstep]
    exact h
  case mounting =>
    rcases hm : s.mounted with _ | _
    case false =>
      -- t performs the unique zfs mount.
      have hstep : stepThread s t =
          { s with
            mounted := true
            mountCount := s.mountCount + 1
            threads := fun u =>
              if u = t then ⟨.finishing true, (s.threads u).waited⟩
              else s.threads u } := by
        unfold stepThread
        rw [hpc, hm]
        rfl
      rw [hstep]
      refine ⟨?_, ?_, ?_, ?_, ?_⟩
      · have hc := h.count_eq
        rw [hm] at hc
        simp [hc]
      · intro u hu
        by_cases hut : u = t
        · rw [hut]
          exact h.owner t (Or.inl hpc)
        · exact h.owner u (by simpa [hut] using hu)
      · intro hfalse
        simp at hfalse
      · intro _
        refine ⟨t, Or.inr (by simp), ?_⟩
        intro u hu
        by_cases hut : u = t
        · exact hut
        · exfalso
          have hu2 : isHolder s u := by simpa [isHolder, hut] using hu
          rcases hu2 with h1 | h1 <;>
            rcases h.premount hm u with h2 | h2 | h2 <;>
              rw [h1] at h2 <;> exact MPC.noConfusion h2
      · intro u hu
        by_cases hut : u = t
        · exfalso
          rw [hut] at hu
          simp only [if_pos rfl] at hu
          rcases h.waited_painted t hu with h1 | h1 <;> rw [hpc] at h1 <;>
            exact MPC.noConfusion h1
        · have hu2 : (s.threads u).waited = true := by simpa [hut] using hu
          simpa [hut] using h.waited_painted u hu2
    case true =>
      -- already mounted: t keeps ourMount = false.
      have hstep : stepThread s t =
          { s with threads := fun u =>
              if u = t then ⟨.finishing false, (s.threads u).waited⟩
              else s.threads u } := by
        unfold stepThread
        rw [hpc, hm]
        rfl
      rw [hstep]
      refine ⟨h.count_eq, ?_, ?_, ?_, ?_⟩
      · intro u hu
        by_cases hut : u = t
        · rw [hut]
          exact h.owner t (Or.inl hpc)
        · exact h.owner u (by simpa [hut] using hu)
      · intro hfalse
        have h2 : s.mounted = false := hfalse
        rw [hm] at h2
        exact Bool.noConfusion h2
      · intro _
        rcases h.holder hm with ⟨t0, ht0, huniq⟩
        have ht0t : ¬t0 = t := by
          intro he
          rw [he] at ht0
          rcases ht0 with h1 | h1 <;> rw [hpc] at h1 <;> exact MPC.noConfusion h1
        refine ⟨t0, ?_, ?_⟩
        · simpa [isHolder, ht0t] using ht0
        · intro u hu
          by_cases hut : u = t
          · exfalso
            rw [hut] at hu
            simp [isHolder] at hu
          · exact huniq u (by simpa [isHolder, hut] using hu)
      · intro u hu
        by_cases hut : u = t
        · exfalso
          rw [hut] at hu
          simp only [if_pos rfl] at hu
          rcases h.waited_painted t hu with h1 | h1 <;> rw [hpc] at h1 <;>
            exact MPC.noConfusion h1
        · have hu2 : (s.threads u).waited = true := by simpa [hut] using hu
          simpa [hut] using h.waited_painted u hu2
  case finishing =>
    -- t closes the channel: waiters return (false, nil), entry is removed.
    have hstep : stepThread s t =
        { s with
          entry := none
          threads := fun u =>
            if u = t then ⟨.done b, (s.threads u).waited⟩
            else if (s.threads u).pc = .waiting then ⟨.done false, (s.threads u).waited⟩
            else s.threads u } := by
      unfold stepThread
      rw [hpc]
    rw [hstep]
    have hmounted : s.mounted = true := by
      rcases hmm : s.mounted with _ | _
      · rcases h.premount hmm t with h1 | h1 | h1 <;>
          rw [hpc] at h1 <;> exact MPC.noConfusion h1
      · rfl
    refine ⟨h.count_eq, ?_, ?_, ?_, ?_⟩
    · intro u hu
      exfalso
      by_cases hut : u = t
      · rw [hut] at hu
        rcases hu with h1 | ⟨b2, h1⟩ <;> simp at h1
      · by_cases hw : (s.threads u).pc = .waiting
        · rcases hu with h1 | ⟨b2, h1⟩ <;> simp [hut, hw] at h1
        · have hu2 : (s.threads u).pc = .mounting ∨
              ∃ b2, (s.threads u).pc = .finishing b2 := by
            simpa [hut, hw] using hu
          have h1 := h.owner u hu2
          have h2 := h.owner t (Or.inr ⟨b, hpc⟩)
          rw [h1] at h2
          exact hut (Option.some.inj h2)
    · intro hfalse
      have h2 : s.mounted = false := hfalse
      rw [hmounted] at h2
      exact Bool.noConfusion h2
    · intro _
      rcases h.holder hmounted with ⟨t0, ht0, huniq⟩
      by_cases hbt : b = true
      · rw [hbt]
        have ht0eq : t = t0 := huniq t (Or.inr (hbt ▸ hpc))
        refine ⟨t, Or.inl (by simp), ?_⟩
        intro u hu
        by_cases hut : u = t
        · exact hut
        · exfalso
          by_cases hw : (s.threads u).pc = .waiting
          · rcases hu with h1 | h1 <;> simp [hut, hw] at h1
          · have hu2 : isHolder s u := by
              simpa [isHolder, hut, hw] using hu
            rw [huniq u hu2, ← ht0eq] at hut
            exact hut rfl
      · have hbf : b = false := by
          cases b
          · rfl
          · exact absurd rfl hbt
        rw [hbf]
        have ht0t : ¬t0 = t := by
          intro he
          rw [he] at ht0
          rcases ht0 with h1 | h1 <;> rw [hpc] at h1
          · exact MPC.noConfusion h1
          · rw [hbf] at h1
            exact Bool.noConfusion (MPC.finishing.inj h1)
        have ht0done : (s.threads t0).pc = .done true := by
          rcases ht0 with h1 | h1
          · exact h1
          · exfalso
            have h2 := h.owner t0 (Or.inr ⟨true, h1⟩)
            have h3 := h.owner t (Or.inr ⟨b, hpc⟩)
            rw [h2] at h3
            exact ht0t (Option.some.inj h3)
        have ht0w : ¬(s.threads t0).pc = .waiting := by
          rw [ht0done]
          intro h1
          exact MPC.noConfusion h1
        refine ⟨t0, Or.inl (by simp [ht0t, ht0w, ht0done]), ?_⟩
        intro u hu
        by_cases hut : u = t
        · exfalso
          rw [hut] at hu
          rcases hu with h1 | h1 <;> simp at h1
        · by_cases hw : (s.threads u).pc = .waiting
          · exfalso
            rcases hu with h1 | h1 <;> simp [hut, hw] at h1
          · exact huniq u (by simpa [isHolder, hut, hw] using hu)
    · intro u hu
      by_cases hut : u = t
      · exfalso
        rw [hut] at hu
        simp only [if_pos rfl] at hu
        rcases h.waited_painted t hu with h1 | h1 <;> rw [hpc] at h1 <;>
          exact MPC.noConfusion h1
      · by_cases hw : (s.threads u).pc = .waiting
        · simp [hut, hw]
        · have hu2 : (s.threads u).waited = true := by simpa [hut, hw] using hu
          rcases h.waited_painted u hu2 with h1 | h1
          · exact absurd h1 hw
          · simp [hut, hw, h1]
  case done =>
    have hstep : stepThread s t = s := by
      unfold stepThread
      rw [hpc]
    rw [hstep]
    exact h

theorem MInv_runSchedule {n : Nat} :
    ∀ (sched : List (Fin n)) (s : MState n), MInv s → MInv (runSchedule s sched) := by
  intro sched
  induction sched with
  | nil => intro s hs; exact hs
  | cons t rest ih => intro s hs; exact ih (stepThread s t) (MInv_step s t hs)

theorem mount_final {n : Nat} (s : MState n) (hn : 0 < n) (hinv : MInv s) :
    s.mountCount ≤ 1 ∧
    ((∀ t, ∃ db, (s.threads t).pc = .done db) →
      ∃! t, (s.threads t).pc = .done true) ∧
    (∀ t db, (s.threads t).pc = .done db → (s.threads t).waited = true →
      db = false) := by
  refine ⟨?_, ?_, ?_⟩
  · rw [hinv.count_eq]
    cases s.mounted <;> simp
  · intro hall
    have hmounted : s.mounted = true := by
      rcases hmm : s.mounted with _ | _
      · exfalso
        rcases hall ⟨0, hn⟩ with ⟨db, hdb⟩
        rcases hinv.premount hmm ⟨0, hn⟩ with h1 | h1 | h1 <;>
          rw [hdb] at h1 <;> exact MPC.noConfusion h1
      · rfl
    rcases hinv.holder hmounted with ⟨t0, ht0, huniq⟩
    have ht0done : (s.threads t0).pc = .done true := by
      rcases ht0 with h1 | h1
      · exact h1
      · exfalso
        rcases hall t0 with ⟨db, hdb⟩
        rw [hdb] at h1
        exact MPC.noConfusion h1
    refine ⟨t0, ht0done, ?_⟩
    intro u hu
    exact huniq u (Or.inl hu)
  · intro t db hdone hwaited
    rcases hinv.waited_painted t hwaited with h1 | h1
    · rw [hdone] at h1
      exact MPC.noConfusion h1
    · rw [hdone] at h1
      exact MPC.done.inj h1

/-- Counterexample to claim C2 as stated: in the interleaving where caller 0
runs to completion before caller 1 takes its first step, caller 1 finds no
channel in the process-wide map, becomes a second owner, sees the dataset
already mounted and returns `(didWork = false, nil)` without ever waiting on
a rendezvous channel, while caller 0 returns `didWork = true`; so it is not
the case that every other caller waits on the rendezvous channel. -/
theorem claim_C2_counterexample :
    ((runSchedule (initMState 2) [0, 0, 0, 1, 1, 1]).threads 1).pc =
      .done false ∧
    ((runSchedule (initMState 2) [0, 0, 0, 1, 1, 1]).threads 1).waited = false ∧
    ((runSchedule (initMState 2) [0, 0, 0, 1, 1, 1]).threads 0).pc =
      .done true ∧
    (runSchedule (initMState 2) [0, 0, 0, 1, 1, 1]).mountCount = 1 := by
  decide

/-- Claim C2 (amended): starting from an unmounted dataset, in every
interleaving of `n ≥ 1` concurrent `ContainerMount` callers with the same
`(pool, name)` key, at most one underlying `zfs mount` is invoked; when all
callers have returned, exactly one observed `didWork = true`; and every
caller that waited on the rendezvous channel observes
`(didWork = false, nil)`.  (The claim as stated additionally requires every
other caller to have waited on the channel, which fails: see the
counterexample.) -/
theorem claim_C2 (n : Nat) (hn : 0 < n) (sched : List (Fin n)) :
    (runSchedule (initMState n) sched).mountCount ≤ 1 ∧
    ((∀ t, ∃ db, ((runSchedule (initMState n) sched).threads t).pc = .done db) →
      ∃! t, ((runSchedule (initMState n) sched).threads t).pc = .done true) ∧
    (∀ t db, ((runSchedule (initMState n) sched).threads t).pc = .done db →
      ((runSchedule (initMState n) sched).threads t).waited = true →
      db = false) :=
  mount_final (runSchedule (initMState n) sched) hn
    (MInv_runSchedule sched (initMState n) (MInv_init n))

/-- Witness for claim C2 (amended): two callers, the second of which waits on
the first caller's channel. -/
theorem claim_C2_witness :
    (runSchedule (initMState 2) [0, 1, 0, 0, 1, 1]).mountCount ≤ 1 ∧
    ((∀ t, ∃ db,
        ((runSchedule (initMState 2) [0, 1, 0, 0, 1, 1]).threads t).pc =
          .done db) →
      ∃! t, ((runSchedule (initMState 2) [0, 1, 0, 0, 1, 1]).threads t).pc =
        .done true) ∧
    (∀ t db,
      ((runSchedule (initMState 2) [0, 1, 0, 0, 1, 1]).threads t).pc =
        .done db →
      ((runSchedule (initMState 2) [0, 1, 0, 0, 1, 1]).threads t).waited =
        true →
      db = false) :=
  claim_C2 2 (by decide) [0, 1, 0, 0, 1, 1]

end LXD
